import Mathlib

/-!
Verification of the filesystem-watch reconciliation engine and the
filter/sort/paginate helper of `utils.py` (pVACtools API controllers),
as a shallow embedding in Lean 4.

Conventions of the embedding:
* Python `str` values are Lean `String`; all string manipulation is done
  structurally over `String.data` (`List Char`) so that concrete inputs
  evaluate by kernel reduction.
* Python `dict` objects are association lists in insertion order
  (`List (String x _)`); keys are unique in every reachable state, and the
  update / delete helpers below implement the first-occurrence semantics
  that coincides with Python dictionaries under that invariant.
* Python exceptions are modelled with `Except PyErr`.
* Filesystem paths are plain strings, assumed absolute and normalized where
  the source assumes so; `os.path` helpers are modelled for POSIX paths.
-/

namespace PVac

/-- Python exceptions that the modelled code can raise. -/
inductive PyErr where
  | keyError (key : String)
  | valueError
  | typeError
deriving DecidableEq, Repr

/-! ### Character and string basics -/

/-- Characters of a decimal digit value; used to model Python `str(int)`. -/
def digitChar (d : Nat) : Char :=
  match d with
  | 0 => '0' | 1 => '1' | 2 => '2' | 3 => '3' | 4 => '4'
  | 5 => '5' | 6 => '6' | 7 => '7' | 8 => '8' | 9 => '9'
  | _ => 'X'

/-- Inverse of `digitChar` on decimal digits. -/
def digitVal (c : Char) : Nat :=
  match c with
  | '0' => 0 | '1' => 1 | '2' => 2 | '3' => 3 | '4' => 4
  | '5' => 5 | '6' => 6 | '7' => 7 | '8' => 8 | '9' => 9
  | _ => 0

/-- Decimal digit list of a natural number, most significant first (fueled,
structural recursion so concrete values reduce in the kernel). -/
def natStrAux : Nat → Nat → List Char
  | 0, _ => []
  | fuel + 1, n => if n < 10 then [digitChar n] else natStrAux fuel (n / 10) ++ [digitChar (n % 10)]

/-- Model of Python `str(n)` for a non-negative integer `n`. -/
def natStr (n : Nat) : String := ⟨natStrAux (n + 1) n⟩

/-- Numeric value of a digit string, used only to invert `natStr`. -/
def parseNum (l : List Char) : Nat := l.foldl (fun acc c => 10 * acc + digitVal c) 0

theorem parseNum_append (l : List Char) (c : Char) :
    parseNum (l ++ [c]) = 10 * parseNum l + digitVal c := by
  simp [parseNum, List.foldl_append]

theorem digitVal_digitChar : ∀ d : Nat, d < 10 → digitVal (digitChar d) = d := by decide

theorem parseNum_natStrAux : ∀ fuel n : Nat, n < fuel → parseNum (natStrAux fuel n) = n := by
  intro fuel
  induction fuel with
  | zero => intro n h; omega
  | succ f ih =>
    intro n h
    by_cases h10 : n < 10
    · simp [natStrAux, h10, parseNum, digitVal_digitChar n h10]
    · have hdiv : n / 10 < f := by omega
      simp only [natStrAux, h10, if_false]
      rw [parseNum_append, ih _ hdiv, digitVal_digitChar _ (Nat.mod_lt n (by omega))]
      omega

theorem natStr_injective : Function.Injective natStr := by
  intro a b h
  have ha := parseNum_natStrAux (a + 1) a (Nat.lt_succ_self a)
  have hb := parseNum_natStrAux (b + 1) b (Nat.lt_succ_self b)
  have : natStrAux (a + 1) a = natStrAux (b + 1) b := congrArg String.data h
  rw [← ha, ← hb, this]

/-- Model of the whitespace set stripped by Python `str.strip()`. -/
def pyWs (c : Char) : Bool := c == ' ' || c == '\t' || c == '\n' || c == '\r' || c == '\x0b' || c == '\x0c'

/-- Python `str.strip()` on a character list. -/
def stripChars (l : List Char) : List Char :=
  ((l.dropWhile pyWs).reverse.dropWhile pyWs).reverse

/-- Lexicographic (code point) strict order on character lists; the order
Python uses to compare strings. -/
def lexLt : List Char → List Char → Bool
  | [], [] => false
  | [], _ :: _ => true
  | _ :: _, [] => false
  | a :: as, b :: bs =>
    if a.toNat < b.toNat then true
    else if b.toNat < a.toNat then false
    else lexLt as bs

/-- Is the (possibly empty) list entirely decimal digits? -/
def allDigits (l : List Char) : Bool := l.all (·.isDigit)

/-- Nonempty run of decimal digits. -/
def digitRun (l : List Char) : Bool := !l.isEmpty && allDigits l

/-- Does the first list start with the second one? -/
def listStarts : List Char → List Char → Bool
  | _, [] => true
  | [], _ :: _ => false
  | a :: as, b :: bs => a == b && listStarts as bs

/-- Model of Python `int(string)`: optional surrounding whitespace, optional
sign, then a nonempty digit run. -/
def pyIntParse (s : String) : Option Int :=
  let l := stripChars s.data
  match l with
  | '+' :: r => if digitRun r then some (parseNum r) else none
  | '-' :: r => if digitRun r then some (-(parseNum r : Int)) else none
  | r => if digitRun r then some (parseNum r) else none

/-- Exponent part of a Python float literal: empty, or e/E, optional sign,
nonempty digit run. -/
def floatExpPart : List Char → Bool
  | [] => true
  | 'e' :: r => (match r with
      | '+' :: d => digitRun d
      | '-' :: d => digitRun d
      | d => digitRun d)
  | 'E' :: r => (match r with
      | '+' :: d => digitRun d
      | '-' :: d => digitRun d
      | d => digitRun d)
  | _ => false

/-- Unsigned numeric body of a Python float literal. -/
def floatNumBody (l : List Char) : Bool :=
  let d1 := l.takeWhile (·.isDigit)
  let r1 := l.dropWhile (·.isDigit)
  match r1 with
  | [] => !d1.isEmpty
  | '.' :: r2 =>
    let d2 := r2.takeWhile (·.isDigit)
    let r3 := r2.dropWhile (·.isDigit)
    (!d1.isEmpty || !d2.isEmpty) && floatExpPart r3
  | r1 => !d1.isEmpty && floatExpPart r1

/-- Lower-cased copy of a character list (ASCII), for inf/nan spellings. -/
def lowerChars (l : List Char) : List Char := l.map Char.toLower

/-- Unsigned body of a Python float literal, including inf/nan spellings. -/
def floatBody (l : List Char) : Bool :=
  lowerChars l == "inf".data || lowerChars l == "infinity".data || lowerChars l == "nan".data ||
    floatNumBody l

/-- Does Python `float(s)` succeed?  Models the `try: float(string)` test. -/
def pyFloatOk (s : String) : Bool :=
  match stripChars s.data with
  | '+' :: r => floatBody r
  | '-' :: r => floatBody r
  | r => floatBody r

/-! ### Association lists with Python-dict semantics -/

/-- First-match lookup (Python `d[k]` / `k in d`). -/
def dlookup {α : Type} : List (String × α) → String → Option α
  | [], _ => none
  | (k, v) :: t, key => if k = key then some v else dlookup t key

/-- Python `d[k] = v`: replace in place if the key exists, else append. -/
def dinsert {α : Type} : List (String × α) → String → α → List (String × α)
  | [], key, v => [(key, v)]
  | (k, w) :: t, key, v => if k = key then (key, v) :: t else (k, w) :: dinsert t key v

/-- Python `del d[k]` given that the key exists (first occurrence removed). -/
def ddelete {α : Type} : List (String × α) → String → List (String × α)
  | [], _ => []
  | (k, w) :: t, key => if k = key then t else (k, w) :: ddelete t key

/-- Python `del d[k]`: raises `KeyError` when the key is absent. -/
def ddeleteE {α : Type} (d : List (String × α)) (key : String) :
    Except PyErr (List (String × α)) :=
  if (dlookup d key).isSome then .ok (ddelete d key) else .error (.keyError key)

/-- Key list of a dict, in insertion order. -/
def dkeys {α : Type} (d : List (String × α)) : List String := d.map (·.1)

/-! ### Metadata Classifier (`_file_info`, `descriptions`, `is_visualizable`,
`visualization_type`) -/

/-- One entry of the `_file_info` table. -/
structure FileInfo where
  description : String
  visualizable : Bool
  vis_type : Option String
deriving DecidableEq, Repr

/-- The static `_file_info` table, verbatim from the source. -/
def fileInfoTable : List (String × FileInfo) :=
  [ ("json", ⟨"Metadata regarding a specific run of pVAC-Seq", false, none⟩),
    ("yml", ⟨"Manifest of auxiliary files supplied to pVAC-Seq", false, none⟩),
    ("yaml", ⟨"Manifest of auxiliary files supplied to pVAC-Seq", false, none⟩),
    ("log", ⟨"Transcript of messages produced by pVAC-Seq", false, none⟩),
    ("chop.tsv", ⟨"Processed and filtered data, with peptide cleavage data added", true, some "full"⟩),
    ("all_epitopes.tsv", ⟨"Processed data from IEDB, but with no filtering or extra data", true, some "full"⟩),
    ("filtered.tsv", ⟨"Processed data with all filters applied", true, some "full"⟩),
    ("stab.tsv", ⟨"Processed and filtered data, with peptide stability data added", true, some "full"⟩),
    ("filtered.condensed.ranked.tsv", ⟨"A condensed report of the processed and filtered data, with ranking score added", true, some "condensed"⟩),
    ("tsv", ⟨"Raw input data parsed out of the input vcf", false, none⟩),
    ("vcf", ⟨"Unprocessed input VCF", false, none⟩) ]

/-- `ext in _file_info` plus the entry itself. -/
def fileInfo (ext : String) : Option FileInfo := dlookup fileInfoTable ext

/-- Match of the regular expression `(split|tsv)_\d+-\d+$` (searched anywhere,
anchored at the end of the string), decided by parsing from the end: a
nonempty digit run, a dash, a nonempty digit run, an underscore, preceded by
text ending in split or tsv. -/
def tempFragPat (s : String) : Bool :=
  let r := s.data.reverse
  let d2 := r.takeWhile (·.isDigit)
  let r1 := r.dropWhile (·.isDigit)
  match r1 with
  | '-' :: r2 =>
    let d1 := r2.takeWhile (·.isDigit)
    let r3 := r2.dropWhile (·.isDigit)
    (match r3 with
     | '_' :: r4 =>
       !d2.isEmpty && !d1.isEmpty &&
         (listStarts r4 "split".data.reverse || listStarts r4 "tsv".data.reverse)
     | _ => false)
  | _ => false

/-- Match of the regular expression `key$`: the string ends with key. -/
def keyPat (s : String) : Bool := listStarts s.data.reverse "key".data.reverse

/-- Source function `descriptions(ext)`. -/
def descriptions (ext : String) : String :=
  match fileInfo ext with
  | some fi => fi.description
  | none =>
    if tempFragPat ext then "A temporary file to cache a subset of the data when working with IEDB"
    else if keyPat ext then "Data used by pVAC-Seq to parse results from IEDB"
    else "Unknown File"

/-- Source function `is_visualizable(ext)`. -/
def is_visualizable (ext : String) : Bool :=
  match fileInfo ext with
  | some fi => fi.visualizable
  | none => false

/-- Source function `visualization_type(ext)`. -/
def visualization_type (ext : String) : Option String :=
  match fileInfo ext with
  | some fi => fi.vis_type
  | none => none

end PVac

namespace PVac

/-! ### ID Allocator -/

/-- The probing loop `while str(fileID) in section: fileID += 1`, fueled.
A fuel of `keys.length + 1` always suffices (pigeonhole, below). -/
def probeAux (keys : List String) : Nat → Nat → Nat
  | 0, n => n
  | fuel + 1, n => if natStr n ∈ keys then probeAux keys fuel (n + 1) else n

/-- First integer, at or after `start`, whose decimal string is not a key. -/
def probeID (keys : List String) (start : Nat) : Nat :=
  probeAux keys (keys.length + 1) start

/-- The allocated string id.  The dropbox sites run this with `start = 0`;
the results-watcher sites run it with `start = ` the section's size. -/
def allocID (keys : List String) (start : Nat) : String := natStr (probeID keys start)

theorem probeAux_spec (keys : List String) : ∀ (fuel start : Nat),
    (∃ k, k < fuel ∧ natStr (start + k) ∉ keys) →
    natStr (probeAux keys fuel start) ∉ keys ∧ start ≤ probeAux keys fuel start ∧
      ∀ m : Nat, start ≤ m → m < probeAux keys fuel start → natStr m ∈ keys := by
  intro fuel
  induction fuel with
  | zero => intro start h; obtain ⟨k, hk, _⟩ := h; omega
  | succ f ih =>
    intro start h
    by_cases hs : natStr start ∈ keys
    · obtain ⟨k, hk, hkfree⟩ := h
      have hk0 : k ≠ 0 := by rintro rfl; simp at hkfree; exact hkfree hs
      have hrec := ih (start + 1) ⟨k - 1, by omega, by
        have : start + 1 + (k - 1) = start + k := by omega
        rw [this]; exact hkfree⟩
      refine ⟨by simpa [probeAux, hs] using hrec.1, ?_, ?_⟩
      · simp only [probeAux, hs, if_true]; omega
      · intro m hm1 hm2
        simp only [probeAux, hs, if_true] at hm2
        rcases Nat.eq_or_lt_of_le hm1 with rfl | hlt
        · exact hs
        · exact hrec.2.2 m (by omega) hm2
    · refine ⟨by simp [probeAux, hs], by simp [probeAux, hs], ?_⟩
      intro m hm1 hm2
      simp only [probeAux, hs, if_false] at hm2
      omega

theorem exists_unused (keys : List String) (start : Nat) :
    ∃ k, k ≤ keys.length ∧ natStr (start + k) ∉ keys := by
  by_contra hcon
  push_neg at hcon
  have hsub : ((List.range (keys.length + 1)).map (fun k => natStr (start + k))) ⊆ keys := by
    intro x hx
    simp only [List.mem_map, List.mem_range] at hx
    obtain ⟨k, hk, rfl⟩ := hx
    exact hcon k (by omega)
  have hinj : Function.Injective (fun k => natStr (start + k)) := by
    intro a b hab
    have := natStr_injective hab
    omega
  have hnd := List.Nodup.map hinj (List.nodup_range (keys.length + 1))
  have hlen := (List.subperm_of_subset hnd hsub).length_le
  simp at hlen

theorem probeID_spec (keys : List String) (start : Nat) :
    natStr (probeID keys start) ∉ keys ∧ start ≤ probeID keys start ∧
      ∀ m : Nat, start ≤ m → m < probeID keys start → natStr m ∈ keys := by
  obtain ⟨k, hk, hfree⟩ := exists_unused keys start
  exact probeAux_spec keys (keys.length + 1) start ⟨k, by omega, hfree⟩

/-- Claim C1 (amended): the dropbox allocation sites (probe start 0) return the
smallest decimal string not already a key; the results-watcher sites (probe
start = section size) return the smallest such string at or above the
section's current size.  The concrete spec examples hold for the dropbox
sites, and for the results sites only when the key set has no hole below its
size. -/
theorem c1_amended_alloc :
    (∀ keys : List String, ∃ n : Nat, allocID keys 0 = natStr n ∧ natStr n ∉ keys ∧
      ∀ m : Nat, m < n → natStr m ∈ keys) ∧
    (∀ keys : List String, ∃ n : Nat, allocID keys keys.length = natStr n ∧
      keys.length ≤ n ∧ natStr n ∉ keys ∧
      ∀ m : Nat, keys.length ≤ m → m < n → natStr m ∈ keys) ∧
    allocID ["0", "1", "3"] 0 = "2" ∧ allocID [] 0 = "0" ∧
    allocID ["0", "1", "2"] 0 = "3" ∧ allocID ["0", "1", "2"] 3 = "3" := by
  refine ⟨?_, ?_, by decide, by decide, by decide, by decide⟩
  · intro keys
    obtain ⟨h1, _, h3⟩ := probeID_spec keys 0
    exact ⟨probeID keys 0, rfl, h1, fun m hm => h3 m (Nat.zero_le m) hm⟩
  · intro keys
    obtain ⟨h1, h2, h3⟩ := probeID_spec keys keys.length
    exact ⟨probeID keys keys.length, rfl, h2, h1, h3⟩

/-- Claim C1 counterexample: the results-watcher allocation (source lines
501-504 and 472-475) starts probing at the size of the section, so over the
key set 0, 1, 3 it allocates "4", not the smallest free id "2". -/
theorem c1_counterexample :
    allocID ["0", "1", "3"] (["0", "1", "3"] : List String).length = "4" ∧
      ("4" : String) ≠ "2" := by
  constructor
  · decide
  · decide

end PVac

namespace PVac

/-- Claim C9: the classifier is total (it is a Lean function) and returns the
tabled description / visualizability / type for every tabled extension, the
temporary-IEDB-cache description (not visualizable, no type) for non-tabled
extensions matching the fragment pattern, the IEDB parsing-aid description
for other non-tabled extensions ending in key, and Unknown File otherwise. -/
theorem c9_classifier :
    (∀ p ∈ fileInfoTable,
      descriptions p.1 = p.2.description ∧ is_visualizable p.1 = p.2.visualizable ∧
        visualization_type p.1 = p.2.vis_type) ∧
    (∀ s : String, fileInfo s = none → tempFragPat s = true →
      descriptions s = "A temporary file to cache a subset of the data when working with IEDB" ∧
        is_visualizable s = false ∧ visualization_type s = none) ∧
    (∀ s : String, fileInfo s = none → tempFragPat s = false → keyPat s = true →
      descriptions s = "Data used by pVAC-Seq to parse results from IEDB" ∧
        is_visualizable s = false ∧ visualization_type s = none) ∧
    (∀ s : String, fileInfo s = none → tempFragPat s = false → keyPat s = false →
      descriptions s = "Unknown File" ∧
        is_visualizable s = false ∧ visualization_type s = none) := by
  refine ⟨?_, ?_, ?_, ?_⟩
  · decide
  · intro s h1 h2
    simp [descriptions, is_visualizable, visualization_type, h1, h2]
  · intro s h1 h2 h3
    simp [descriptions, is_visualizable, visualization_type, h1, h2, h3]
  · intro s h1 h2 h3
    simp [descriptions, is_visualizable, visualization_type, h1, h2, h3]

/-- Witness for C9: each hypothesis-bearing branch instantiated at a concrete
extension. -/
theorem c9_witness :
    (descriptions "chop.tsv" = "Processed and filtered data, with peptide cleavage data added" ∧
      is_visualizable "chop.tsv" = true ∧ visualization_type "chop.tsv" = some "full") ∧
    (descriptions "tsv_12-34" = "A temporary file to cache a subset of the data when working with IEDB" ∧
      is_visualizable "tsv_12-34" = false ∧ visualization_type "tsv_12-34" = none) ∧
    (descriptions "somekey" = "Data used by pVAC-Seq to parse results from IEDB" ∧
      is_visualizable "somekey" = false ∧ visualization_type "somekey" = none) ∧
    (descriptions "xyz" = "Unknown File" ∧
      is_visualizable "xyz" = false ∧ visualization_type "xyz" = none) :=
  ⟨c9_classifier.1 ("chop.tsv", ⟨"Processed and filtered data, with peptide cleavage data added", true, some "full"⟩) (by decide),
   c9_classifier.2.1 "tsv_12-34" (by decide) (by decide),
   c9_classifier.2.2.1 "somekey" (by decide) (by decide) (by decide),
   c9_classifier.2.2.2 "xyz" (by decide) (by decide) (by decide)⟩

end PVac

namespace PVac

/-! ### POSIX path helpers (`os.path`), for absolute normalized paths -/

/-- Python `str.split(sep)` for a single-character separator: always at least
one (possibly empty) component. -/
def splitOnChar (sep : Char) : List Char → List (List Char)
  | [] => [[]]
  | c :: t =>
    let r := splitOnChar sep t
    if c == sep then [] :: r
    else match r with
      | h :: t2 => (c :: h) :: t2
      | [] => [[c]]

/-- Python `sep.join(parts)` for a single-character separator. -/
def joinWithChar (sep : Char) : List (List Char) → List Char
  | [] => []
  | [x] => x
  | x :: t => x ++ sep :: joinWithChar sep t

/-- `os.path.basename`: the part after the last slash. -/
def ospBasename (p : String) : String := ⟨(splitOnChar '/' p.data).getLastD []⟩

/-- The extension token: `'.'.join(os.path.basename(filename).split('.')[1:])`
(everything after the first dot of the basename). -/
def extOf (filename : String) : String :=
  ⟨joinWithChar '.' ((splitOnChar '.' (ospBasename filename).data).drop 1)⟩

/-- Nonempty path components of a normalized path. -/
def pathComps (p : String) : List (List Char) :=
  (splitOnChar '/' p.data).filter (fun c => !c.isEmpty)

/-- Longest common component prefix. -/
def commonPre : List (List Char) → List (List Char) → List (List Char)
  | a :: as, b :: bs => if a == b then a :: commonPre as bs else []
  | _, _ => []

/-- `os.path.commonpath([p, q])` for absolute normalized paths. -/
def ospCommonpath (p q : String) : String :=
  ⟨'/' :: joinWithChar '/' (commonPre (pathComps p) (pathComps q))⟩

/-- Drop the common component prefix of two component lists. -/
def dropCommonPre : List (List Char) → List (List Char) → List (List Char) × List (List Char)
  | a :: as, b :: bs => if a == b then dropCommonPre as bs else (a :: as, b :: bs)
  | as, bs => (as, bs)

/-- `os.path.relpath(p, start)` for two absolute normalized paths (the only
shape the watchers feed it). -/
def ospRelpath (p start : String) : String :=
  let pr := dropCommonPre (pathComps p) (pathComps start)
  let parts := (List.replicate pr.2.length "..".data) ++ pr.1
  if parts.isEmpty then "." else ⟨joinWithChar '/' parts⟩

/-- `os.path.join(a, b)` (POSIX, two arguments). -/
def ospJoin (a b : String) : String :=
  if listStarts b.data ['/'] then b
  else if a == "" || a.data.getLast? == some '/' then ⟨a.data ++ b.data⟩
  else ⟨a.data ++ '/' :: b.data⟩

/-! ### Manifest data model -/

/-- A file-metadata record, as built by every watcher site. -/
structure FileRecord where
  fullname : String
  display_name : String
  description : String
  is_visualizable : Bool
  visualization_type : Option String
deriving DecidableEq, Repr

/-- The record dictionary every site builds from a path pair and extension:
classifier output re-derived from `ext`. -/
def mkRecord (fullname display_name ext : String) : FileRecord :=
  ⟨fullname, display_name, descriptions ext, is_visualizable ext, visualization_type ext⟩

/-- The slice of a `process-N` entry the reconcilers touch: its output
directory and its files section. -/
structure Process where
  output : String
  files : List (String × FileRecord)
deriving DecidableEq, Repr

/-- The manifest store slice the watchers touch: the dropbox section, the
process counter and the per-job entries (keyed by job number `N`, standing
for the string key `process-N`). -/
structure Manifest where
  dropbox : List (String × FileRecord)
  processid : Nat
  processes : List (Nat × Process)
deriving DecidableEq, Repr

/-- First-match lookup among the per-job entries. -/
def plookup : List (Nat × Process) → Nat → Option Process
  | [], _ => none
  | (k, p) :: t, i => if k = i then some p else plookup t i

/-- Replace the files section of the first entry with the given job id. -/
def pupdateFiles : List (Nat × Process) → Nat → List (String × FileRecord) →
    List (Nat × Process)
  | [], _, _ => []
  | (k, p) :: t, i, f => if k = i then (k, { p with files := f }) :: t else (k, p) :: pupdateFiles t i f

/-- The `parentpaths` comprehension of the results watcher: the output
directory and id of every existing `process-N`, `N = 0 .. processid`.  The
source builds a set; the model fixes the ascending-id iteration order. -/
def parentpaths (m : Manifest) : List (String × Nat) :=
  (List.range (m.processid + 1)).filterMap
    (fun i => (plookup m.processes i).map (fun p => (p.output, i)))

/-! ### Event Reconciler: dropbox watcher handlers.  Each handler returns the
new manifest and the list of manifest snapshots persisted by `data.save()`
calls, in order.  The drop-table database side effect is external and not
part of the manifest model. -/

/-- Dropbox `_create` (source lines 344-365). -/
def dropboxCreate (dbr : String) (m : Manifest) (src_path : String) :
    Manifest × List Manifest :=
  let filename := ospRelpath src_path dbr
  let fid := allocID (dkeys m.dropbox) 0
  let ext := extOf filename
  let m1 : Manifest := { m with dropbox := dinsert m.dropbox fid (mkRecord (ospJoin dbr filename) filename ext) }
  (m1, [m1])

/-- Dropbox `_delete` (source lines 371-386): first record whose
display name equals the relative path is removed, then a save; no match
falls through silently. -/
def dropboxDelete (dbr : String) (m : Manifest) (src_path : String) :
    Manifest × List Manifest :=
  let filename := ospRelpath src_path dbr
  match m.dropbox.find? (fun kr => kr.2.display_name == filename) with
  | some kr =>
    let m1 : Manifest := { m with dropbox := ddelete m.dropbox kr.1 }
    (m1, [m1])
  | none => (m, [])

/-- Dropbox `_move` (source lines 392-420): first record whose display name
equals the relative source path is rebuilt in place from the destination. -/
def dropboxMove (dbr : String) (m : Manifest) (src_path dest_path : String) :
    Manifest × List Manifest :=
  let filesrc := ospRelpath src_path dbr
  let filedest := ospRelpath dest_path dbr
  let ext := extOf filedest
  match m.dropbox.find? (fun kr => kr.2.display_name == filesrc) with
  | some kr =>
    let rec1 := mkRecord (ospJoin dbr filedest) (ospRelpath filedest dbr) ext
    let m1 : Manifest := { m with dropbox := dinsert m.dropbox kr.1 rec1 }
    (m1, [m1])
  | none => (m, [])

/-! ### Event Reconciler: results watcher handlers -/

/-- Results `_create` (source lines 489-519): first owning job by the
commonpath test; id allocated starting at the section's size. -/
def resultsCreate (m : Manifest) (src_path : String) : Manifest × List Manifest :=
  match (parentpaths m).find? (fun ppi => ospCommonpath src_path ppi.1 == ppi.1) with
  | some ppi =>
    match plookup m.processes ppi.2 with
    | some proc =>
      let fid := allocID (dkeys proc.files) proc.files.length
      let ext := extOf src_path
      let files2 := dinsert proc.files fid (mkRecord src_path (ospRelpath src_path proc.output) ext)
      let m1 : Manifest := { m with processes := pupdateFiles m.processes ppi.2 files2 }
      (m1, [m1])
    | none => (m, [])
  | none => (m, [])

/-- Results `_delete` (source lines 525-546): within the first owning job,
every record whose fullname equals the path is removed; a save happens
whether or not any record matched. -/
def resultsDelete (m : Manifest) (src_path : String) : Manifest × List Manifest :=
  match (parentpaths m).find? (fun ppi => ospCommonpath src_path ppi.1 == ppi.1) with
  | some ppi =>
    match plookup m.processes ppi.2 with
    | some proc =>
      let files2 := proc.files.filter (fun fr => !(fr.2.fullname == src_path))
      let m1 : Manifest := { m with processes := pupdateFiles m.processes ppi.2 files2 }
      (m1, [m1])
    | none => (m, [])
  | none => (m, [])

/-- One step of the srckey/destkey resolution loop of results `_move`
(source lines 563-567).  The `elif` is faithful: a parent that contains the
source is never tested against the destination. -/
def resolveStep (filesrc filedest : String) (acc : Option Nat × Option Nat)
    (e : String × Nat) : Option Nat × Option Nat :=
  if ospCommonpath filesrc e.1 == e.1 then (some e.2, acc.2)
  else if ospCommonpath filedest e.1 == e.1 then (acc.1, some e.2)
  else acc

/-- Results `_move` (source lines 552-587).  `none` models the initial value
(the empty string) of srckey/destkey, so equal keys with `none` is the
`data['']` lookup, a KeyError; the same-owner branch updates matching records
in place and does not save; the different-owner branch is delete then
create, each with its own save. -/
def resultsMove (m : Manifest) (src_path dest_path : String) :
    Except PyErr (Manifest × List Manifest) :=
  let keys2 := (parentpaths m).foldl (resolveStep src_path dest_path) (none, none)
  let ext := extOf dest_path
  if keys2.1 = keys2.2 then
    match keys2.1 with
    | none => .error (.keyError "")
    | some pid =>
      match plookup m.processes pid with
      | some proc =>
        let files2 := proc.files.map (fun fr =>
          if fr.2.fullname == src_path then
            (fr.1, mkRecord dest_path (ospRelpath dest_path proc.output) ext)
          else fr)
        .ok ({ m with processes := pupdateFiles m.processes pid files2 }, [])
      | none => .error (.keyError "")
  else
    let d := resultsDelete m src_path
    let c := resultsCreate d.1 dest_path
    .ok (c.1, d.2 ++ c.2)

/-! ### Directory Reconciler: dropbox removal phase (source lines 319-322).
The source collects `targets` as a set of fullnames and then deletes
`data['dropbox'][fileID]` for each member, i.e. it indexes the section by
fullname. -/

/-- The dropbox removal phase, given the set of paths currently on disk. -/
def dropboxReconcileRemove (dropbox : List (String × FileRecord))
    (current : List String) : Except PyErr (List (String × FileRecord)) :=
  let recorded := dropbox.map (fun kr => kr.2.fullname)
  let targets := ((dropbox.filter (fun kr =>
      decide (kr.2.fullname ∈ recorded) && !decide (kr.2.fullname ∈ current))).map
        (fun kr => kr.2.fullname)).dedup
  targets.foldlM (fun sec fn => ddeleteE sec fn) dropbox

/-! ### The dataObj store (source lines 21-41) -/

/-- The app data storage object: the `_datafiles` registry (backing file to
registered keys) and the remaining top-level items.  The `_datafiles` entry
itself is held apart from the open map. -/
structure dataObj (α : Type) where
  datafiles : List (String × List String)
  store : List (String × α)
deriving DecidableEq

/-- The comprehension from line 31,
set of k for parent in datafiles for k in parent: `parent` ranges over the
registry KEYS (the backing file paths), so `k` ranges over their characters,
as one-character strings. -/
def registeredChars {α : Type} (d : dataObj α) : List String :=
  ((d.datafiles.map (·.1)).map (fun s => s.data.map (fun c => (⟨[c]⟩ : String)))).flatten

/-- `dataObj.__setitem__` (source lines 30-33). -/
def dataObj_setitem {α : Type} (d : dataObj α) (key : String) (v : α) :
    Except PyErr (dataObj α) :=
  if key = "_datafiles" ∨ (dlookup d.store key).isSome ∨ key ∈ registeredChars d then
    .ok { d with store := dinsert d.store key v }
  else
    .error (.keyError key)

/-- `dataObj.addKey` (source lines 35-41). -/
def dataObj_addKey {α : Type} (d : dataObj α) (key : String) (v : α) (dest : String) :
    dataObj α :=
  { datafiles :=
      match dlookup d.datafiles dest with
      | some ks => dinsert d.datafiles dest (ks ++ [key])
      | none => d.datafiles ++ [(dest, [key])],
    store := dinsert d.store key v }

end PVac

namespace PVac

/-! ### Small dictionary lemmas -/

theorem dlookup_dinsert {α : Type} (d : List (String × α)) (k : String) (v : α) :
    dlookup (dinsert d k v) k = some v := by
  induction d with
  | nil => simp [dinsert, dlookup]
  | cons h t ih =>
    by_cases hk : h.1 = k
    · simp [dinsert, hk, dlookup]
    · simp [dinsert, hk, dlookup, ih]

theorem plookup_mem (ps : List (Nat × Process)) (i : Nat) (p : Process) :
    plookup ps i = some p → (i, p) ∈ ps := by
  induction ps with
  | nil => simp [plookup]
  | cons h t ih =>
    intro hp
    obtain ⟨a, b⟩ := h
    by_cases hk : a = i
    · rw [plookup, if_pos hk] at hp
      have hb : b = p := by simpa using hp
      subst hb
      subst hk
      exact List.mem_cons_self _ _
    · rw [plookup, if_neg hk] at hp
      exact List.mem_cons_of_mem _ (ih hp)

theorem pupdateFiles_self (ps : List (Nat × Process)) (i : Nat) (p : Process) :
    plookup ps i = some p → pupdateFiles ps i p.files = ps := by
  induction ps with
  | nil => intro _; rfl
  | cons h t ih =>
    intro hp
    obtain ⟨a, b⟩ := h
    by_cases hk : a = i
    · rw [plookup, if_pos hk] at hp
      have hb : b = p := by simpa using hp
      subst hb
      subst hk
      show pupdateFiles ((a, b) :: t) a b.files = (a, b) :: t
      rw [pupdateFiles, if_pos rfl]
    · rw [plookup, if_neg hk] at hp
      rw [pupdateFiles, if_neg hk, ih hp]

/-! ### Claim C2 (code bug): the dropbox removal phase of the Directory
Reconciler indexes the section by fullname, not by id, so any vanished file
raises KeyError instead of deleting its record. -/

/-- Claim C2, evaluated at the failing input: one record (id 0) whose file
has vanished from disk.  The removal phase raises
KeyError of the fullname instead of deleting record 0. -/
theorem c2_removal_eval :
    dropboxReconcileRemove [("0", mkRecord "/data/dropbox/a.vcf" "a.vcf" "vcf")] [] =
      .error (.keyError "/data/dropbox/a.vcf") := by
  rfl

/-! ### Claim C3 (code bug): the registration check of
`dataObj.__setitem__` iterates the characters of the backing-file paths, not
the registered key lists, so an unregistered single-character key contained
in a backing path is accepted. -/

/-- Claim C3, evaluated at the failing input: a store with one backing file
named f and no registered keys accepts a write to the unregistered key f
(which the claim says must raise KeyError); a multi-character unregistered
key still raises; and a key registered through addKey is always writable. -/
theorem c3_setitem_eval :
    dataObj_setitem (⟨[("f", [])], []⟩ : dataObj Nat) "f" 0 =
      .ok ⟨[("f", [])], [("f", 0)]⟩ ∧
    dataObj_setitem (⟨[("f", [])], []⟩ : dataObj Nat) "gg" 0 =
      .error (.keyError "gg") ∧
    (∀ (d : dataObj Nat) (key : String) (v : Nat) (dest : String),
      dataObj_setitem (dataObj_addKey d key v dest) key v =
        .ok { dataObj_addKey d key v dest with
              store := dinsert (dataObj_addKey d key v dest).store key v }) := by
  refine ⟨by rfl, by rfl, ?_⟩
  intro d key v dest
  have hs : (dlookup (dataObj_addKey d key v dest).store key).isSome := by
    simp [dataObj_addKey, dlookup_dinsert]
  rw [dataObj_setitem, if_pos (Or.inr (Or.inl hs))]

/-! ### Claim C7 (code bug): a move whose source and destination lie under
the same job output root is dispatched to delete-then-create, because the
elif in the owner resolution never assigns destkey once the parent matched
the source; the record id is not preserved. -/

/-- A concrete manifest for the move claims: job 0 with two records. -/
def m7 : Manifest :=
  ⟨[], 0, [(0, ⟨"/r/0", [("0", mkRecord "/r/0/a.vcf" "a.vcf" "vcf"),
                          ("1", mkRecord "/r/0/c.log" "c.log" "log")]⟩)]⟩

/-- Claim C7, evaluated at the failing input: moving `/r/0/a.vcf` (record id
0) to `/r/0/b.tsv` inside the same output root `/r/0` leaves the files
section keyed 1 and 2: the id 0 was deleted and a fresh id 2 allocated,
while the claim requires the key set 0, 1 to be preserved. -/
theorem c7_move_eval :
    (resultsMove m7 "/r/0/a.vcf" "/r/0/b.tsv").map
        (fun out => out.1.processes.map (fun e => dkeys e.2.files)) =
      .ok [["1", "2"]] ∧ (["1", "2"] : List String) ≠ ["0", "1"] := by
  exact ⟨by rfl, by decide⟩

/-! ### Claim C8: delete of a path with no matching record is a silent
no-op on the manifest, for both delete handlers. -/

/-- Claim C8: if no dropbox record's display name matches the deleted path,
the dropbox handler neither mutates nor saves nor raises; if no per-job
record's fullname matches, the results handler leaves the manifest equal to
what it was (it may re-save the unchanged manifest) and raises nothing. -/
theorem c8_delete_noop :
    (∀ (dbr : String) (m : Manifest) (src : String),
      (∀ kr ∈ m.dropbox, kr.2.display_name ≠ ospRelpath src dbr) →
      dropboxDelete dbr m src = (m, [])) ∧
    (∀ (m : Manifest) (src : String),
      (∀ e ∈ m.processes, ∀ fr ∈ e.2.files, fr.2.fullname ≠ src) →
      (resultsDelete m src).1 = m) := by
  constructor
  · intro dbr m src h
    have hf : m.dropbox.find? (fun kr => kr.2.display_name == ospRelpath src dbr) = none := by
      rw [List.find?_eq_none]
      intro kr hkr
      simpa using h kr hkr
    simp [dropboxDelete, hf]
  · intro m src h
    rw [resultsDelete]
    cases hf : (parentpaths m).find? (fun ppi => ospCommonpath src ppi.1 == ppi.1) with
    | none => rfl
    | some ppi =>
      cases hp : plookup m.processes ppi.2 with
      | none => simp [hp]
      | some proc =>
        have hfl : proc.files.filter (fun fr => !(fr.2.fullname == src)) = proc.files := by
          rw [List.filter_eq_self]
          intro fr hfr
          simpa using h (ppi.2, proc) (plookup_mem _ _ _ hp) fr hfr
        simp [hp, hfl, pupdateFiles_self m.processes ppi.2 proc hp]

/-- A concrete manifest for the C8 witness. -/
def m8 : Manifest :=
  ⟨[("0", mkRecord "/data/dropbox/a.vcf" "a.vcf" "vcf")], 0,
   [(0, ⟨"/r/0", [("0", mkRecord "/r/0/a.vcf" "a.vcf" "vcf")]⟩)]⟩

/-- Witness for C8 at concrete no-match inputs. -/
theorem c8_witness :
    dropboxDelete "/data/dropbox" m8 "/data/dropbox/zzz.txt" = (m8, []) ∧
    (resultsDelete m8 "/r/0/zzz.txt").1 = m8 :=
  ⟨c8_delete_noop.1 "/data/dropbox" m8 "/data/dropbox/zzz.txt" (by decide),
   c8_delete_noop.2 m8 "/r/0/zzz.txt" (by decide)⟩

end PVac

namespace PVac

/-! ### Claim C4: every mutating event-handler run ends with a save of the
final manifest -/

theorem parentpaths_snd_sublist (ps : List (Nat × Process)) :
    ∀ l : List Nat,
      ((l.filterMap (fun i => (plookup ps i).map (fun p => (p.output, i)))).map (·.2)).Sublist l := by
  intro l
  induction l with
  | nil => simp
  | cons i t ih =>
    rw [List.filterMap_cons]
    cases plookup ps i with
    | none => exact ih.cons i
    | some p => simpa using ih.cons₂ i

theorem parentpaths_snd_nodup (m : Manifest) : ((parentpaths m).map (·.2)).Nodup :=
  (parentpaths_snd_sublist m.processes (List.range (m.processid + 1))).nodup
    (List.nodup_range (m.processid + 1))

theorem resolveFold_inv (fs fd : String) :
    ∀ (l : List (String × Nat)) (sk dk : Option Nat),
      (l.map (·.2)).Nodup →
      (∀ j : Nat, sk = some j → j ∉ l.map (·.2)) →
      (∀ j : Nat, dk = some j → j ∉ l.map (·.2)) →
      (sk = dk → sk = none) →
      ((l.foldl (resolveStep fs fd) (sk, dk)).1 = (l.foldl (resolveStep fs fd) (sk, dk)).2 →
        (l.foldl (resolveStep fs fd) (sk, dk)).1 = none) := by
  intro l
  induction l with
  | nil =>
    intro sk dk _ _ _ hinv
    simpa using hinv
  | cons e t ih =>
    intro sk dk hnd hsk hdk hinv
    have hnd2 : (t.map (·.2)).Nodup := (List.nodup_cons.mp (by simpa using hnd)).2
    have hemem : e.2 ∉ t.map (·.2) := (List.nodup_cons.mp (by simpa using hnd)).1
    rw [List.foldl_cons]
    rw [resolveStep]
    by_cases h1 : (ospCommonpath fs e.1 == e.1) = true
    · rw [if_pos h1]
      refine ih (some e.2) dk hnd2 ?_ ?_ ?_
      · intro j hj
        cases hj
        exact hemem
      · intro j hj
        have := hdk j hj
        simp only [List.map_cons, List.mem_cons] at this
        exact fun hc => this (Or.inr hc)
      · intro hc
        exfalso
        have := hdk e.2 hc.symm
        simp at this
    · rw [if_neg h1]
      by_cases h2 : (ospCommonpath fd e.1 == e.1) = true
      · rw [if_pos h2]
        refine ih sk (some e.2) hnd2 ?_ ?_ ?_
        · intro j hj
          have := hsk j hj
          simp only [List.map_cons, List.mem_cons] at this
          exact fun hc => this (Or.inr hc)
        · intro j hj
          cases hj
          exact hemem
        · intro hc
          exfalso
          have := hsk e.2 hc
          simp at this
      · rw [if_neg h2]
        refine ih sk dk hnd2 ?_ ?_ hinv
        · intro j hj
          have := hsk j hj
          simp only [List.map_cons, List.mem_cons] at this
          exact fun hc => this (Or.inr hc)
        · intro j hj
          have := hdk j hj
          simp only [List.map_cons, List.mem_cons] at this
          exact fun hc => this (Or.inr hc)

theorem resolve_none (m : Manifest) (fs fd : String) :
    ((parentpaths m).foldl (resolveStep fs fd) (none, none)).1 =
        ((parentpaths m).foldl (resolveStep fs fd) (none, none)).2 →
      ((parentpaths m).foldl (resolveStep fs fd) (none, none)).1 = none :=
  resolveFold_inv fs fd (parentpaths m) none none (parentpaths_snd_nodup m)
    (by simp) (by simp) (fun _ => rfl)

theorem resultsDelete_cases (m : Manifest) (src : String) :
    resultsDelete m src = (m, []) ∨
      (resultsDelete m src).2 = [(resultsDelete m src).1] := by
  rw [resultsDelete]
  cases hf : (parentpaths m).find? (fun ppi => ospCommonpath src ppi.1 == ppi.1) with
  | none => exact Or.inl rfl
  | some ppi =>
    cases hp : plookup m.processes ppi.2 with
    | none =>
      left
      simp [hp]
    | some proc =>
      right
      simp [hp]

theorem resultsCreate_cases (m : Manifest) (src : String) :
    resultsCreate m src = (m, []) ∨
      (resultsCreate m src).2 = [(resultsCreate m src).1] := by
  rw [resultsCreate]
  cases hf : (parentpaths m).find? (fun ppi => ospCommonpath src ppi.1 == ppi.1) with
  | none => exact Or.inl rfl
  | some ppi =>
    cases hp : plookup m.processes ppi.2 with
    | none =>
      left
      simp [hp]
    | some proc =>
      right
      simp [hp]

/-- Claim C4: every event-reconciler handler (create, delete, move; dropbox
and results watcher) that changes the manifest ends with a save whose
snapshot is the final manifest.  For the results move this holds for every
normally-returning run: the only branch that mutates without saving (the
same-owner in-place update) is unreachable, since srckey can equal destkey
only when both are unresolved, in which case the handler raises before
mutating. -/
theorem c4_mutation_persisted :
    (∀ (dbr : String) (m : Manifest) (src : String), (dropboxCreate dbr m src).1 ≠ m →
      (dropboxCreate dbr m src).2.getLast? = some (dropboxCreate dbr m src).1) ∧
    (∀ (dbr : String) (m : Manifest) (src : String), (dropboxDelete dbr m src).1 ≠ m →
      (dropboxDelete dbr m src).2.getLast? = some (dropboxDelete dbr m src).1) ∧
    (∀ (dbr : String) (m : Manifest) (src dest : String), (dropboxMove dbr m src dest).1 ≠ m →
      (dropboxMove dbr m src dest).2.getLast? = some (dropboxMove dbr m src dest).1) ∧
    (∀ (m : Manifest) (src : String), (resultsCreate m src).1 ≠ m →
      (resultsCreate m src).2.getLast? = some (resultsCreate m src).1) ∧
    (∀ (m : Manifest) (src : String), (resultsDelete m src).1 ≠ m →
      (resultsDelete m src).2.getLast? = some (resultsDelete m src).1) ∧
    (∀ (m : Manifest) (src dest : String) (out : Manifest × List Manifest),
      resultsMove m src dest = .ok out → out.1 ≠ m →
      out.2.getLast? = some out.1) := by
  refine ⟨?_, ?_, ?_, ?_, ?_, ?_⟩
  · intro dbr m src _
    rfl
  · intro dbr m src hne
    rw [dropboxDelete] at hne ⊢
    cases hf : m.dropbox.find? (fun kr => kr.2.display_name == ospRelpath src dbr) with
    | none => simp [hf] at hne
    | some kr => rfl
  · intro dbr m src dest hne
    rw [dropboxMove] at hne ⊢
    cases hf : m.dropbox.find? (fun kr => kr.2.display_name == ospRelpath src dbr) with
    | none => simp [hf] at hne
    | some kr => rfl
  · intro m src hne
    rcases resultsCreate_cases m src with hc | hc
    · rw [hc] at hne
      exact absurd rfl hne
    · rw [hc]
      rfl
  · intro m src hne
    rcases resultsDelete_cases m src with hc | hc
    · rw [hc] at hne
      exact absurd rfl hne
    · rw [hc]
      rfl
  · intro m src dest out hok hne
    rw [resultsMove] at hok
    by_cases hc : ((parentpaths m).foldl (resolveStep src dest) (none, none)).1 =
        ((parentpaths m).foldl (resolveStep src dest) (none, none)).2
    · rw [if_pos hc] at hok
      rw [resolve_none m src dest hc] at hok
      exact absurd hok (by simp)
    · rw [if_neg hc] at hok
      have hout : out = ((resultsCreate (resultsDelete m src).1 dest).1,
          (resultsDelete m src).2 ++ (resultsCreate (resultsDelete m src).1 dest).2) := by
        simpa using hok.symm
      subst hout
      rcases resultsCreate_cases (resultsDelete m src).1 dest with hC | hC
      · rw [hC] at hne ⊢
        rcases resultsDelete_cases m src with hD | hD
        · rw [hD] at hne
          exact absurd rfl hne
        · rw [hD]
          rfl
      · rw [hC]
        exact List.getLast?_concat _
  
/-- Witness for C4: the dropbox create conjunct at a concrete mutating
input. -/
theorem c4_witness :
    (dropboxCreate "/d" ⟨[], 0, []⟩ "/d/a.vcf").2.getLast? =
      some (dropboxCreate "/d" ⟨[], 0, []⟩ "/d/a.vcf").1 :=
  c4_mutation_persisted.1 "/d" ⟨[], 0, []⟩ "/d/a.vcf" (by decide)

end PVac

namespace PVac

/-! ### Filtering, sorting and paging helpers (source lines 645-749).
Cell values are modelled as Python ints or strings, the two value shapes the
claims exercise; floats as cell values are outside the model. -/

/-- A cell value of a record. -/
inductive PyVal where
  | int (n : Int)
  | str (s : String)
deriving DecidableEq, Repr

/-- A record row: a dict from column name to value, in insertion order. -/
abbrev Row := List (String × PyVal)

/-- The structured 400 error object `(code, message, fields)`. -/
structure Err400 where
  code : Nat
  message : String
  fields : String
deriving DecidableEq, Repr

/-- The success envelope of `fullresponse`. -/
structure Envelope where
  current_page : Int
  per_page : Int
  total_pages : Int
  total_count : Int
  result : List Row
deriving DecidableEq, Repr

/-- Backtracking attempt of the operator alternation `<=?|>=?|!=|==` of the
`queryfilters` regex at a fixed position, including the one-character
fallbacks of the greedy `=?` when the final `(.+)` would become empty. -/
def opCandsAt : List Char → Option (String × List Char)
  | '<' :: '=' :: r => if !r.isEmpty then some ("<=", r) else some ("<", '=' :: r)
  | '<' :: r => if !r.isEmpty then some ("<", r) else none
  | '>' :: '=' :: r => if !r.isEmpty then some (">=", r) else some (">", '=' :: r)
  | '>' :: r => if !r.isEmpty then some (">", r) else none
  | '!' :: '=' :: r => if !r.isEmpty then some ("!=", r) else none
  | '=' :: '=' :: r => if !r.isEmpty then some ("==", r) else none
  | _ => none

/-- Greedy search for the split position of `(.+)(<=?|>=?|!=|==)(.+)`: the
first group takes the longest prefix that still lets the operator and a
nonempty remainder match, so positions are tried from longest to shortest. -/
def qfSearchAux (chars : List Char) : Nat → Option (String × String × String)
  | 0 => none
  | p + 1 =>
    match opCandsAt (chars.drop (p + 1)) with
    | some (op, rest) => some (⟨chars.take (p + 1)⟩, op, ⟨rest⟩)
    | none => qfSearchAux chars p

/-- `queryfilters.match(f)`: the groups (column, operator, value). -/
def queryfiltersMatch (f : String) : Option (String × String × String) :=
  qfSearchAux f.data (f.data.length - 1)

/-- Source `is_number(string)`: does `float(string)` succeed? -/
def is_number (s : String) : Bool := pyFloatOk s

/-- `cmp(arg1, op, arg2)` on two Python ints. -/
def cmpInt (a : Int) (op : String) (b : Int) : Except PyErr Bool :=
  match op with
  | "<" => .ok (decide (a < b))
  | "<=" => .ok (decide (a ≤ b))
  | "==" => .ok (decide (a = b))
  | "!=" => .ok (decide (a ≠ b))
  | ">=" => .ok (decide (b ≤ a))
  | ">" => .ok (decide (b < a))
  | _ => .error .typeError

/-- `cmp(arg1, op, arg2)` on two Python strings: lexicographic by code
points. -/
def cmpStr (a : String) (op : String) (b : String) : Except PyErr Bool :=
  match op with
  | "<" => .ok (lexLt a.data b.data)
  | "<=" => .ok (!lexLt b.data a.data)
  | "==" => .ok (a == b)
  | "!=" => .ok (a != b)
  | ">=" => .ok (!lexLt a.data b.data)
  | ">" => .ok (lexLt b.data a.data)
  | _ => .error .typeError

/-- `cmp(arg1, op, arg2)` between a Python string and a float: equality
comparisons are False/True across types, order comparisons raise
TypeError. -/
def cmpStrFloat (op : String) : Except PyErr Bool :=
  match op with
  | "==" => .ok false
  | "!=" => .ok true
  | _ => .error .typeError

/-- The per-cell comparison of `filterdata` (source lines 737-745): an int
cell coerces the filter value with `int(val)` (ValueError on failure) and
compares numerically; a numeric-looking string cell coerces with
`float(val)` and then compares a str against a float; any other string cell
compares as strings. -/
def compareCell (comp : PyVal) (op val : String) : Except PyErr Bool :=
  match comp with
  | .int n =>
    match pyIntParse val with
    | some m => cmpInt n op m
    | none => .error .valueError
  | .str s =>
    if is_number s then
      if pyFloatOk val then cmpStrFloat op else .error .valueError
    else cmpStr s op val

/-- Evaluate one (stripped, nonempty) filter expression against a row. -/
def evalFilterOn (columns : List String) (row : Row) (f : String) :
    Except PyErr (Sum Err400 Bool) :=
  match queryfiltersMatch f with
  | none => .ok (.inl ⟨400, "Encountered an invalid filter (" ++ f ++ ")", "filtering"⟩)
  | some (colname, op, val) =>
    if colname ∈ columns then
      match dlookup row colname with
      | some comp =>
        match compareCell comp op val with
        | .ok b => .ok (.inr b)
        | .error e => .error e
      | none => .error (.keyError colname)
    else .ok (.inl ⟨400, "Unknown column name " ++ colname, "filtering"⟩)

/-- The inner filter loop for one row: empty (stripped) filters are skipped,
a false comparison breaks, and the row is kept only when the last-indexed
filter is nonempty and evaluates true. -/
def rowKeep (columns : List String) (row : Row) : List String → Except PyErr (Sum Err400 Bool)
  | [] => .ok (.inr false)
  | [f] =>
    let fs : String := ⟨stripChars f.data⟩
    if fs.data.isEmpty then .ok (.inr false)
    else evalFilterOn columns row fs
  | f :: rest =>
    let fs : String := ⟨stripChars f.data⟩
    if fs.data.isEmpty then rowKeep columns row rest
    else
      match evalFilterOn columns row fs with
      | .ok (.inr true) => rowKeep columns row rest
      | .ok (.inr false) => .ok (.inr false)
      | other => other

/-- The outer filter loop: rows kept in order; a 400 or an exception aborts
the whole call. -/
def filterRows (columns : List String) (filters : List String) :
    List Row → Except PyErr (Sum Err400 (List Row))
  | [] => .ok (.inr [])
  | row :: t =>
    match rowKeep columns row filters with
    | .ok (.inr true) =>
      match filterRows columns filters t with
      | .ok (.inr l) => .ok (.inr (row :: l))
      | other => other
    | .ok (.inr false) => filterRows columns filters t
    | .ok (.inl e) => .ok (.inl e)
    | .error e => .error e

/-! ### The sort passes -/

/-- `operator.itemgetter(col)` under the guard that every row has the
column; the default is never reached there. -/
def keyOf (col : String) (row : Row) : PyVal := (dlookup row col).getD (.int 0)

/-- Python value comparison used by the sort key: ints numerically, strings
lexicographically.  The two cross-type cases make the relation total and
transitive; they are unreachable under the run-time type check that models
the TypeError CPython raises on a mixed column. -/
def pvLe : PyVal → PyVal → Bool
  | .int a, .int b => decide (a ≤ b)
  | .str a, .str b => !lexLt b.data a.data
  | .int _, .str _ => true
  | .str _, .int _ => false

/-- Ascending key order on rows for a column. -/
def rowLeA (col : String) (a b : Row) : Prop := pvLe (keyOf col a) (keyOf col b) = true

/-- Descending key order on rows for a column (Python `reverse=True`, which
is also stable). -/
def rowLeD (col : String) (a b : Row) : Prop := pvLe (keyOf col b) (keyOf col a) = true

instance (col : String) : DecidableRel (rowLeA col) := fun _ _ => instDecidableEqBool _ _

instance (col : String) : DecidableRel (rowLeD col) := fun _ _ => instDecidableEqBool _ _

/-- `col[1:]`. -/
def strDrop1 (s : String) : String := ⟨s.data.drop 1⟩

/-- Is every present value of the column an int, or every one a string?
CPython's run detection compares every adjacent pair, so a mixed int/str
column of two or more rows always raises TypeError. -/
def columnTyped (col : String) (data : List Row) : Bool :=
  data.all (fun row => match dlookup row col with | some (.int _) => true | _ => false) ||
    data.all (fun row => match dlookup row col with | some (.str _) => true | _ => false)

/-- One stable single-key pass: `sorted(data, key=itemgetter(col[1:]),
reverse=col.startswith('-'))`, realized as a stable insertion sort. -/
def passSort (c : String) (d : List Row) : List Row :=
  if listStarts c.data ['-'] then d.insertionSort (rowLeD (strDrop1 c))
  else d.insertionSort (rowLeA (strDrop1 c))

/-- One iteration of the sort loop body: direction check, column check, then
the stable pass.  Key extraction happens first (KeyError), comparisons after
(TypeError on a mixed column). -/
def sortStep (columns : List String) (col : String) (data : List Row) :
    Except PyErr (Sum Err400 (List Row)) :=
  if !(listStarts col.data ['-'] || listStarts col.data ['+']) then
    .ok (.inl ⟨400, "Please indicate which direction you\x27d like to sort by by putting a + or - in front of the column name", "sorting"⟩)
  else if !(columns.contains (strDrop1 col)) then
    .ok (.inl ⟨400, "Unknown column name " ++ strDrop1 col, "sorting"⟩)
  else if !(data.all (fun row => (dlookup row (strDrop1 col)).isSome)) then
    .error (.keyError (strDrop1 col))
  else if !columnTyped (strDrop1 col) data then
    .error .typeError
  else
    .ok (.inr (passSort col data))

/-- The `while i > -1` loop of `sort`, iterating the directive index from
`len(sorting)-1` down to 0; the fuel argument is `i + 1`. -/
def sortLoopAux (sorting columns : List String) : Nat → List Row → Except PyErr (Sum Err400 (List Row))
  | 0, data => .ok (.inr data)
  | k + 1, data =>
    match sortStep columns (sorting.getD k "") data with
    | .ok (.inr d2) => sortLoopAux sorting columns k d2
    | other => other

/-! ### Paging -/

/-- Python list slicing `l[start:stop]` with int (possibly negative)
bounds. -/
def pySlice {γ : Type} (l : List γ) (start stop : Int) : List γ :=
  let n : Int := l.length
  let s := if start < 0 then max (start + n) 0 else min start n
  let e := if stop < 0 then max (stop + n) 0 else min stop n
  (l.take e.toNat).drop s.toNat

/-- `math.ceil(a / b)` on ints (exact rational model of the float
division). -/
def ceilDivQ (a b : Int) : Int := Int.ceil ((a : ℚ) / (b : ℚ))

/-- Source `fullresponse(data, page, count)`. -/
def fullresponse (data : List Row) (page count : Int) : Envelope :=
  let count2 : Int := if count = -1 then (data.length : Int) else count
  let total_pages : Int := if count2 = 0 then 0 else ceilDivQ (data.length : Int) count2
  { current_page := page
    per_page := count2
    total_pages := total_pages
    total_count := (data.length : Int)
    result := pySlice data (count2 * (page - 1))
      (if count2 * page < (data.length : Int) then count2 * page else (data.length : Int)) }

/-- Source `sort(data, sorting, page, count, columns)`. -/
def sort (data : List Row) (sorting : List String) (page count : Int)
    (columns : List String) : Except PyErr (Sum Err400 Envelope) :=
  if sorting.length == 0 || sorting.headD "" == "none" then
    .ok (.inr (fullresponse data page count))
  else
    match sortLoopAux sorting columns sorting.length data with
    | .ok (.inr d2) => .ok (.inr (fullresponse d2 page count))
    | .ok (.inl e) => .ok (.inl e)
    | .error e => .error e

/-- Source `filterdata(data, filters, sorting, page, count)`. -/
def filterdata (data : List Row) (filters sorting : List String) (page count : Int) :
    Except PyErr (Sum Err400 Envelope) :=
  if data.length == 0 then .ok (.inr (fullresponse data page count))
  else
    let columns := (data.headD []).map (·.1)
    if filters.length == 0 || filters.headD "" == "none" then
      sort data sorting page count columns
    else
      match filterRows columns filters data with
      | .ok (.inr fl) => sort fl sorting page count columns
      | .ok (.inl e) => .ok (.inl e)
      | .error e => .error e

end PVac

namespace PVac

/-- Claim C10: on an empty record list `filterdata` returns the success
envelope with empty result, zero total count and zero total pages, for every
combination of filters, sort directives, page and count; no validation runs,
so no 400 is ever produced for empty input. -/
theorem c10_empty_filterdata :
    ∀ (filters sorting : List String) (page count : Int),
      filterdata [] filters sorting page count =
        .ok (.inr { current_page := page, per_page := if count = -1 then 0 else count,
                    total_pages := 0, total_count := 0, result := [] }) := by
  intro filters sorting page count
  have hceil : ∀ b : Int, ceilDivQ 0 b = 0 := by
    intro b
    simp [ceilDivQ]
  by_cases hc : count = -1
  · subst hc
    simp [filterdata, fullresponse, pySlice, hceil]
  · simp [filterdata, fullresponse, pySlice, hceil, hc]

/-- Claim C5 counterexample: a well-formed filter whose value does not parse
as an int, applied to an int column, escapes as an uncaught ValueError
instead of a structured 400 object. -/
theorem c5_counterexample :
    filterdata [[("x", PyVal.int 1)]] ["x==abc"] [] 1 (-1) = .error .valueError := by
  rfl

/-- Claim C5 (amended): int cells compare numerically against the parsed
filter value whenever `int(val)` succeeds, and raise ValueError otherwise;
non-numeric string cells compare lexicographically; numeric-looking string
cells compare string-against-float: equality False, inequality True, order
comparisons TypeError (and ValueError if the value itself does not parse as
a float); concretely, the int column of 12 and 3 filtered by x>9 keeps
exactly 12 (numeric, not lexicographic, comparison). -/
theorem c5_amended_compare :
    (∀ (n m : Int) (val : String), pyIntParse val = some m →
      compareCell (.int n) "<" val = .ok (decide (n < m)) ∧
      compareCell (.int n) "<=" val = .ok (decide (n ≤ m)) ∧
      compareCell (.int n) "==" val = .ok (decide (n = m)) ∧
      compareCell (.int n) "!=" val = .ok (decide (n ≠ m)) ∧
      compareCell (.int n) ">=" val = .ok (decide (m ≤ n)) ∧
      compareCell (.int n) ">" val = .ok (decide (m < n))) ∧
    (∀ (n : Int) (op val : String), pyIntParse val = none →
      compareCell (.int n) op val = .error .valueError) ∧
    (∀ (s val : String), is_number s = false →
      compareCell (.str s) "<" val = .ok (lexLt s.data val.data) ∧
      compareCell (.str s) "==" val = .ok (s == val) ∧
      compareCell (.str s) ">" val = .ok (lexLt val.data s.data)) ∧
    (∀ (s op val : String), is_number s = true → pyFloatOk val = false →
      compareCell (.str s) op val = .error .valueError) ∧
    (∀ (s val : String), is_number s = true → pyFloatOk val = true →
      compareCell (.str s) "==" val = .ok false ∧
      compareCell (.str s) "!=" val = .ok true ∧
      compareCell (.str s) "<" val = .error .typeError ∧
      compareCell (.str s) "<=" val = .error .typeError ∧
      compareCell (.str s) ">" val = .error .typeError ∧
      compareCell (.str s) ">=" val = .error .typeError) ∧
    filterdata [[("x", PyVal.int 12)], [("x", PyVal.int 3)]] ["x>9"] [] 1 (-1) =
      .ok (.inr { current_page := 1, per_page := 1, total_pages := 1, total_count := 1,
                  result := [[("x", PyVal.int 12)]] }) := by
  refine ⟨?_, ?_, ?_, ?_, ?_, ?_⟩
  · intro n m val h
    refine ⟨?_, ?_, ?_, ?_, ?_, ?_⟩ <;> simp [compareCell, h, cmpInt]
  · intro n op val h
    simp [compareCell, h]
  · intro s val h
    refine ⟨?_, ?_, ?_⟩ <;> simp [compareCell, h, cmpStr]
  · intro s op val h1 h2
    simp [compareCell, h1, h2]
  · intro s val h1 h2
    refine ⟨?_, ?_, ?_, ?_, ?_, ?_⟩ <;> simp [compareCell, h1, h2, cmpStrFloat]
  · show filterdata _ _ _ _ _ = _
    have hrows : filterRows ["x"] ["x>9"]
        [[("x", PyVal.int 12)], [("x", PyVal.int 3)]] = .ok (.inr [[("x", PyVal.int 12)]]) := by
      rfl
    rw [filterdata]
    norm_num [hrows, PVac.sort, fullresponse, pySlice, ceilDivQ]
    decide

/-- Witness for C5: each hypothesis-bearing branch instantiated
concretely. -/
theorem c5_witness :
    compareCell (.int 2) "<" " 10 " = .ok (decide ((2 : Int) < 10)) ∧
    compareCell (.int 2) "==" "abc" = .error .valueError ∧
    compareCell (.str "apple") "<" "banana" = .ok (lexLt "apple".data "banana".data) ∧
    compareCell (.str "12") "<" "zz" = .error .valueError ∧
    compareCell (.str "12") "<" "3.5" = .error .typeError :=
  ⟨((c5_amended_compare.1 2 10 " 10 " (by rfl)).1),
   c5_amended_compare.2.1 2 "==" "abc" (by rfl),
   (c5_amended_compare.2.2.1 "apple" "banana" (by rfl)).1,
   c5_amended_compare.2.2.2.1 "12" "<" "zz" (by rfl) (by rfl),
   (c5_amended_compare.2.2.2.2.1 "12" "3.5" (by rfl) (by rfl)).2.2.1⟩

end PVac

namespace PVac

/-! ### Order facts for the sort relations -/

theorem char_eq_of_toNat_eq {a b : Char} (h : a.toNat = b.toNat) : a = b := by
  have hv : a.val = b.val := by
    unfold Char.toNat at h
    exact UInt32.toNat.inj h
  exact Char.eq_of_val_eq hv

theorem lexLt_irrefl : ∀ l : List Char, lexLt l l = false := by
  intro l
  induction l with
  | nil => rfl
  | cons a as ih => simp [lexLt, ih]

theorem lexLt_asymm : ∀ a b : List Char, lexLt a b = true → lexLt b a = false := by
  intro a
  induction a with
  | nil =>
    intro b h
    cases b with
    | nil => simp [lexLt] at h
    | cons y ys => rfl
  | cons x xs ih =>
    intro b h
    cases b with
    | nil => simp [lexLt] at h
    | cons y ys =>
      by_cases hxy : x.toNat < y.toNat
      · simp [lexLt, hxy, Nat.lt_asymm hxy, Nat.ne_of_lt hxy]
      · by_cases hyx : y.toNat < x.toNat
        · simp [lexLt, hxy, hyx] at h
        · have hx : ¬ y.toNat < x.toNat := hyx
          simp [lexLt, hxy, hyx] at h ⊢
          exact ih ys h

theorem lexLt_trans : ∀ a b c : List Char,
    lexLt a b = true → lexLt b c = true → lexLt a c = true := by
  intro a
  induction a with
  | nil =>
    intro b c hab hbc
    cases b with
    | nil => simp [lexLt] at hab
    | cons y ys =>
      cases c with
      | nil => simp [lexLt] at hbc
      | cons z zs => rfl
  | cons x xs ih =>
    intro b c hab hbc
    cases b with
    | nil => simp [lexLt] at hab
    | cons y ys =>
      cases c with
      | nil => simp [lexLt] at hbc
      | cons z zs =>
        simp only [lexLt] at hab hbc ⊢
        by_cases hxy : x.toNat < y.toNat
        · by_cases hyz : y.toNat < z.toNat
          · simp [Nat.lt_trans hxy hyz]
          · by_cases hzy : z.toNat < y.toNat
            · simp [hyz, hzy] at hbc
            · have : y.toNat = z.toNat := by omega
              simp [this ▸ hxy]
        · by_cases hyx : y.toNat < x.toNat
          · simp [hxy, hyx] at hab
          · have hxey : x.toNat = y.toNat := by omega
            by_cases hyz : y.toNat < z.toNat
            · simp [hxey ▸ hyz]
            · by_cases hzy : z.toNat < y.toNat
              · simp [hyz, hzy] at hbc
              · have hyez : y.toNat = z.toNat := by omega
                have hxz : ¬ x.toNat < z.toNat := by omega
                have hzx : ¬ z.toNat < x.toNat := by omega
                simp [hxy, hyx] at hab
                simp [hyz, hzy] at hbc
                simp [hxz, hzx]
                exact ih ys zs hab hbc

theorem lexLt_connex : ∀ a b : List Char,
    lexLt a b = false → lexLt b a = false → a = b := by
  intro a
  induction a with
  | nil =>
    intro b hab _
    cases b with
    | nil => rfl
    | cons y ys => simp [lexLt] at hab
  | cons x xs ih =>
    intro b hab hba
    cases b with
    | nil => simp [lexLt] at hba
    | cons y ys =>
      simp only [lexLt] at hab hba
      by_cases hxy : x.toNat < y.toNat
      · simp [hxy] at hab
      · by_cases hyx : y.toNat < x.toNat
        · simp [hxy, hyx] at hba
        · have hxe : x = y := char_eq_of_toNat_eq (by omega)
          simp [hxy, hyx] at hab hba
          rw [hxe, ih ys hab hba]

theorem pvLe_refl : ∀ v : PyVal, pvLe v v = true := by
  intro v
  cases v with
  | int n => simp [pvLe]
  | str s => simp [pvLe, lexLt_irrefl]

theorem pvLe_total : ∀ a b : PyVal, pvLe a b = true ∨ pvLe b a = true := by
  intro a b
  cases a with
  | int n =>
    cases b with
    | int m =>
      rcases Int.le_total n m with h | h
      · exact Or.inl (by simp [pvLe, h])
      · exact Or.inr (by simp [pvLe, h])
    | str t => exact Or.inl rfl
  | str s =>
    cases b with
    | int m => exact Or.inr rfl
    | str t =>
      by_cases h : lexLt t.data s.data = true
      · refine Or.inr ?_
        simp [pvLe, lexLt_asymm _ _ h]
      · exact Or.inl (by simp [pvLe, h])

theorem pvLe_trans : ∀ a b c : PyVal,
    pvLe a b = true → pvLe b c = true → pvLe a c = true := by
  intro a b c hab hbc
  cases a with
  | int n =>
    cases b with
    | int m =>
      cases c with
      | int k =>
        simp [pvLe] at hab hbc ⊢
        omega
      | str t => rfl
    | str s =>
      cases c with
      | int k => simp [pvLe] at hbc
      | str t => rfl
  | str s =>
    cases b with
    | int m => simp [pvLe] at hab
    | str t =>
      cases c with
      | int k => simp [pvLe] at hbc
      | str u =>
        simp only [pvLe, Bool.not_eq_true'] at hab hbc ⊢
        by_cases hus : lexLt u.data s.data = true
        · exfalso
          by_cases hts : lexLt t.data s.data = true
          · simp [hts] at hab
          · by_cases hst : lexLt s.data t.data = true
            · have hut : lexLt u.data t.data = true := lexLt_trans _ _ _ hus hst
              simp [hut] at hbc
            · have hde : s.data = t.data :=
                lexLt_connex _ _ (by simpa using hst) (by simpa using hts)
              rw [← hde] at hbc
              simp [hus] at hbc
        · simpa using hus

instance (col : String) : IsTotal Row (rowLeA col) :=
  ⟨fun a b => pvLe_total (keyOf col a) (keyOf col b)⟩

instance (col : String) : IsTrans Row (rowLeA col) :=
  ⟨fun _ _ _ hab hbc => pvLe_trans _ _ _ hab hbc⟩

instance (col : String) : IsTotal Row (rowLeD col) :=
  ⟨fun a b => pvLe_total (keyOf col b) (keyOf col a)⟩

instance (col : String) : IsTrans Row (rowLeD col) :=
  ⟨fun _ _ _ hab hbc => pvLe_trans _ _ _ hbc hab⟩

end PVac

namespace PVac

/-! ### Stability of the insertion-sort pass -/

theorem filter_orderedInsert_neg {α : Type} (r : α → α → Prop) [DecidableRel r]
    (p : α → Bool) (a : α) (ha : p a = false) :
    ∀ l : List α, (List.orderedInsert r a l).filter p = l.filter p := by
  intro l
  induction l with
  | nil => simp [List.orderedInsert, ha]
  | cons b t ih =>
    by_cases hr : r a b
    · simp [List.orderedInsert, hr, ha]
    · simp only [List.orderedInsert, if_neg hr]
      by_cases hb : p b
      · simp [List.filter_cons, hb, ih]
      · simp [List.filter_cons, hb, ih]

theorem filter_orderedInsert_pos {α : Type} (r : α → α → Prop) [DecidableRel r]
    (p : α → Bool) (a : α) (ha : p a = true) :
    ∀ l : List α, (∀ b ∈ l, p b = true → r a b) →
      (List.orderedInsert r a l).filter p = a :: l.filter p := by
  intro l
  induction l with
  | nil => simp [List.orderedInsert, ha]
  | cons b t ih =>
    intro h
    by_cases hr : r a b
    · simp [List.orderedInsert, hr, ha]
    · have hb : p b = false := by
        by_contra hcon
        exact hr (h b (List.mem_cons_self b t) (Bool.of_not_eq_false hcon))
      simp only [List.orderedInsert, if_neg hr, List.filter_cons, hb]
      simpa [hb] using ih (fun x hx hpx => h x (List.mem_cons_of_mem b hx) hpx)

theorem filter_insertionSort {α : Type} (r : α → α → Prop) [DecidableRel r]
    (p : α → Bool) (hcl : ∀ a b : α, p a = true → p b = true → r a b) :
    ∀ l : List α, ((l.insertionSort r).filter p) = l.filter p := by
  intro l
  induction l with
  | nil => rfl
  | cons a t ih =>
    show ((List.orderedInsert r a (t.insertionSort r)).filter p) = _
    by_cases ha : p a
    · rw [filter_orderedInsert_pos r p a ha _
        (fun b _ hb => hcl a b ha hb), ih]
      simp [List.filter_cons, ha]
    · have ha2 : p a = false := by simpa using ha
      rw [filter_orderedInsert_neg r p a ha2, ih]
      simp [List.filter_cons, ha2]

/-! ### The sort loop: structure and successful runs -/

theorem columnTyped_perm (col : String) {l1 l2 : List Row} (h : l2.Perm l1) :
    columnTyped col l1 = true → columnTyped col l2 = true := by
  intro ht
  rcases Bool.or_eq_true _ _ |>.mp ht with h1 | h1
  · refine Bool.or_eq_true _ _ |>.mpr (Or.inl ?_)
    rw [List.all_eq_true] at h1 ⊢
    exact fun row hrow => h1 row (h.subset hrow)
  · refine Bool.or_eq_true _ _ |>.mpr (Or.inr ?_)
    rw [List.all_eq_true] at h1 ⊢
    exact fun row hrow => h1 row (h.subset hrow)

theorem sortStep_ok (columns : List String) (c : String) (data : List Row)
    (h1 : (listStarts c.data ['-'] || listStarts c.data ['+']) = true)
    (h2 : strDrop1 c ∈ columns)
    (h3 : ∀ row ∈ data, (dlookup row (strDrop1 c)).isSome = true)
    (h4 : columnTyped (strDrop1 c) data = true) :
    sortStep columns c data = .ok (.inr (passSort c data)) := by
  have h2b : columns.contains (strDrop1 c) = true := by
    simpa [List.elem_iff] using h2
  have h3b : data.all (fun row => (dlookup row (strDrop1 c)).isSome) = true :=
    List.all_eq_true.mpr h3
  simp [sortStep, h1, h2, h2b, h3b, h4]


theorem sortLoopAux_cons (columns : List String) (c : String) (rest : List String) :
    ∀ (k : Nat) (data : List Row),
      sortLoopAux (c :: rest) columns (k + 1) data =
        (match sortLoopAux rest columns k data with
         | .ok (.inr d2) => sortStep columns c d2
         | other => other) := by
  intro k
  induction k with
  | zero =>
    intro data
    rw [show sortLoopAux rest columns 0 data =
      (.ok (.inr data) : Except PyErr (Sum Err400 (List Row))) from rfl]
    rw [show sortLoopAux (c :: rest) columns 1 data =
      (match sortStep columns c data with
       | .ok (.inr d2) => sortLoopAux (c :: rest) columns 0 d2
       | other => other) from rfl]
    cases h : sortStep columns c data with
    | error e => exact h.symm
    | ok v =>
      cases v with
      | inl e => exact h.symm
      | inr d2 => exact h.symm
  | succ k ih =>
    intro data
    rw [show sortLoopAux (c :: rest) columns (k + 1 + 1) data =
      (match sortStep columns (rest.getD k "") data with
       | .ok (.inr d2) => sortLoopAux (c :: rest) columns (k + 1) d2
       | other => other) from rfl]
    rw [show sortLoopAux rest columns (k + 1) data =
      (match sortStep columns (rest.getD k "") data with
       | .ok (.inr d2) => sortLoopAux rest columns k d2
       | other => other) from rfl]
    cases h : sortStep columns (rest.getD k "") data with
    | error e => rfl
    | ok v =>
      cases v with
      | inl e => rfl
      | inr d2 => exact ih d2

theorem sortLoopAux_ok (columns : List String) :
    ∀ (s : List String) (data : List Row),
      (∀ col ∈ s, (listStarts col.data ['-'] || listStarts col.data ['+']) = true) →
      (∀ col ∈ s, strDrop1 col ∈ columns) →
      (∀ col ∈ s, ∀ row ∈ data, (dlookup row (strDrop1 col)).isSome = true) →
      (∀ col ∈ s, columnTyped (strDrop1 col) data = true) →
      ∃ out : List Row, sortLoopAux s columns s.length data = .ok (.inr out) ∧ out.Perm data := by
  intro s
  induction s with
  | nil =>
    intro data _ _ _ _
    exact ⟨data, rfl, List.Perm.refl data⟩
  | cons c rest ih =>
    intro data hsign hcol hkeys htyped
    obtain ⟨mid, hmid, hperm⟩ := ih data
      (fun col hc => hsign col (List.mem_cons_of_mem c hc))
      (fun col hc => hcol col (List.mem_cons_of_mem c hc))
      (fun col hc => hkeys col (List.mem_cons_of_mem c hc))
      (fun col hc => htyped col (List.mem_cons_of_mem c hc))
    have hstep : sortStep columns c mid = .ok (.inr (passSort c mid)) := by
      refine sortStep_ok columns c mid (hsign c (List.mem_cons_self c rest))
        (hcol c (List.mem_cons_self c rest)) ?_ ?_
      · intro row hrow
        exact hkeys c (List.mem_cons_self c rest) row (hperm.subset hrow)
      · exact columnTyped_perm _ hperm (htyped c (List.mem_cons_self c rest))
    refine ⟨passSort c mid, ?_, ?_⟩
    · rw [List.length_cons, sortLoopAux_cons columns c rest rest.length data, hmid]
      exact hstep
    · have hps : (passSort c mid).Perm mid := by
        by_cases hneg : listStarts c.data ['-'] = true
        · rw [passSort, if_pos hneg]
          exact List.perm_insertionSort _ mid
        · rw [passSort, if_neg hneg]
          exact List.perm_insertionSort _ mid
      exact hps.trans hperm

/-- The directive's key order: descending for a minus sign, ascending
otherwise. -/
def dirRel (c : String) : Row → Row → Prop :=
  fun a b =>
    if listStarts c.data ['-'] then rowLeD (strDrop1 c) a b else rowLeA (strDrop1 c) a b

/-- Claim C6: with well-formed directives, the sort loop runs one stable
single-key pass per directive from the last-listed to the first-listed one:
the returned data equals the first-listed pass applied to the result of the
remaining passes, so the first-listed directive is the most significant key
of the result: the result is sorted by it, is a permutation of the
intermediate list, and rows with equal first keys keep the intermediate
order (stability). -/
theorem c6_sort_passes (data : List Row) (c : String) (rest : List String)
    (page count : Int) (columns : List String)
    (hsign : ∀ col ∈ c :: rest, (listStarts col.data ['-'] || listStarts col.data ['+']) = true)
    (hcol : ∀ col ∈ c :: rest, strDrop1 col ∈ columns)
    (hnone : c ≠ "none")
    (hkeys : ∀ col ∈ c :: rest, ∀ row ∈ data, (dlookup row (strDrop1 col)).isSome = true)
    (htyped : ∀ col ∈ c :: rest, columnTyped (strDrop1 col) data = true) :
    ∃ inter : List Row,
      sortLoopAux rest columns rest.length data = .ok (.inr inter) ∧
      PVac.sort data (c :: rest) page count columns =
        .ok (.inr (fullresponse (passSort c inter) page count)) ∧
      List.Sorted (dirRel c) (passSort c inter) ∧
      (passSort c inter).Perm inter ∧
      (∀ v : PyVal, (passSort c inter).filter (fun row => keyOf (strDrop1 c) row == v) =
        inter.filter (fun row => keyOf (strDrop1 c) row == v)) := by
  obtain ⟨inter, hinter, hperm⟩ := sortLoopAux_ok columns rest data
    (fun col hc => hsign col (List.mem_cons_of_mem c hc))
    (fun col hc => hcol col (List.mem_cons_of_mem c hc))
    (fun col hc => hkeys col (List.mem_cons_of_mem c hc))
    (fun col hc => htyped col (List.mem_cons_of_mem c hc))
  have hstep : sortStep columns c inter = .ok (.inr (passSort c inter)) := by
    refine sortStep_ok columns c inter (hsign c (List.mem_cons_self c rest))
      (hcol c (List.mem_cons_self c rest)) ?_ ?_
    · intro row hrow
      exact hkeys c (List.mem_cons_self c rest) row (hperm.subset hrow)
    · exact columnTyped_perm _ hperm (htyped c (List.mem_cons_self c rest))
  refine ⟨inter, hinter, ?_, ?_, ?_, ?_⟩
  · rw [PVac.sort]
    have hcond : (((c :: rest).length == 0) || ((c :: rest).headD "" == "none")) = false := by
      simp [hnone]
    rw [hcond]
    simp only [Bool.false_eq_true, if_false, List.length_cons]
    rw [sortLoopAux_cons columns c rest rest.length data, hinter]
    show (match sortStep columns c inter with
          | .ok (.inr d2) => (.ok (.inr (fullresponse d2 page count)) :
              Except PyErr (Sum Err400 Envelope))
          | .ok (.inl e) => .ok (.inl e)
          | .error e => .error e) =
        .ok (.inr (fullresponse (passSort c inter) page count))
    rw [hstep]
  · by_cases hneg : listStarts c.data ['-'] = true
    · have hdr : dirRel c = rowLeD (strDrop1 c) := by
        funext a b
        simp [dirRel, hneg]
      rw [hdr, passSort, if_pos hneg]
      exact List.sorted_insertionSort _ inter
    · have hdr : dirRel c = rowLeA (strDrop1 c) := by
        funext a b
        simp [dirRel, hneg]
      rw [hdr, passSort, if_neg hneg]
      exact List.sorted_insertionSort _ inter
  · by_cases hneg : listStarts c.data ['-'] = true
    · rw [passSort, if_pos hneg]
      exact List.perm_insertionSort _ inter
    · rw [passSort, if_neg hneg]
      exact List.perm_insertionSort _ inter
  · intro v
    by_cases hneg : listStarts c.data ['-'] = true
    · rw [passSort, if_pos hneg]
      refine filter_insertionSort _ _ ?_ inter
      intro a b hpa hpb
      have hka : keyOf (strDrop1 c) a = v := by simpa using hpa
      have hkb : keyOf (strDrop1 c) b = v := by simpa using hpb
      show pvLe (keyOf (strDrop1 c) b) (keyOf (strDrop1 c) a) = true
      rw [hka, hkb]
      exact pvLe_refl v
    · rw [passSort, if_neg hneg]
      refine filter_insertionSort _ _ ?_ inter
      intro a b hpa hpb
      have hka : keyOf (strDrop1 c) a = v := by simpa using hpa
      have hkb : keyOf (strDrop1 c) b = v := by simpa using hpb
      show pvLe (keyOf (strDrop1 c) a) (keyOf (strDrop1 c) b) = true
      rw [hka, hkb]
      exact pvLe_refl v

/-- Witness for C6 at a concrete two-row table and the single directive
plus-x. -/
theorem c6_witness :
    ∃ inter : List Row,
      sortLoopAux [] ["x"] ([] : List String).length
        [[("x", PyVal.int 2)], [("x", PyVal.int 1)]] = .ok (.inr inter) ∧
      PVac.sort [[("x", PyVal.int 2)], [("x", PyVal.int 1)]] ["+x"] 1 (-1) ["x"] =
        .ok (.inr (fullresponse (passSort "+x" inter) 1 (-1))) ∧
      List.Sorted (dirRel "+x") (passSort "+x" inter) ∧
      (passSort "+x" inter).Perm inter ∧
      (∀ v : PyVal, (passSort "+x" inter).filter (fun row => keyOf (strDrop1 "+x") row == v) =
        inter.filter (fun row => keyOf (strDrop1 "+x") row == v)) :=
  c6_sort_passes [[("x", PyVal.int 2)], [("x", PyVal.int 1)]] "+x" [] 1 (-1) ["x"]
    (by decide) (by decide) (by decide) (by decide) (by decide)

end PVac
